import Mathlib

/-!
Shallow embedding of the map/reduce engine of tideland/go-dsa
(`mapreduce/mapreduce.go`) together with proofs about it.

Modelling conventions:
* A Go `Identifiable` value is a `Rec`: its `ID()` string is kept as the
  list of its bytes (`List Nat`, each intended `< 256`), the payload is an
  opaque integer.
* Channels are modelled by the finite list of values that travel over them
  before the channel is closed; "the channel closes after delivering l" is
  the end of the list.  Where the claims speak about the order of channel
  operations of a single goroutine, that goroutine's behaviour is embedded
  as the list of events it performs, in program order.
* Goroutine pools are embedded denotationally with a canonical schedule:
  worker `i`'s conduit content is the sublist of the dispatched stream that
  the dispatcher sends to index `i`, and concatenations over workers are
  taken in index order.  The theorems proved below only use facts that are
  independent of the interleaving (counts, multisets, sets of identities,
  per-index routing, and the value returned by `Consume`).
* `runtime.NumCPU()` is an arbitrary positive machine parameter `cpus`.
-/

namespace GoDsa

/-- The Adler-32 modulus (65521), as in RFC 1950 and Go's `hash/adler32`. -/
def adlerMod : Nat := 65521

/-- One byte of an Adler-32 computation: the running pair `(a, b)` absorbs
byte `c`.  Go keeps `a`,`b` in `uint32` and applies the modulus lazily;
applying it at each step yields the same values. -/
def adler32Step (ab : Nat × Nat) (c : Nat) : Nat × Nat :=
  ((ab.1 + c) % adlerMod, (ab.2 + (ab.1 + c) % adlerMod) % adlerMod)

/-- `adler32.Checksum` of Go's standard library on a byte sequence:
`a` starts at 1, `b` at 0, and the checksum is `b*2^16 + a`. -/
def adler32Checksum (data : List Nat) : Nat :=
  (data.foldl adler32Step (1, 0)).2 * 65536 + (data.foldl adler32Step (1, 0)).1

/-- An `Identifiable` record: the bytes of its `ID()` string plus an opaque
payload the engine never inspects. -/
structure Rec where
  ident : List Nat
  payload : Int
deriving DecidableEq, Repr

/-- `uint32(n)` for a nonnegative Go `int`. -/
def uint32Of (n : Nat) : Nat := n % 4294967296

/-- The reducer index computed by the dispatch loop of `performReducing`:
`idx := adler32.Checksum([]byte(kv.ID())) % uint32(size)`. -/
def reduceIndex (size : Nat) (kv : Rec) : Nat :=
  adler32Checksum kv.ident % uint32Of size

/-!  ### The termination counter `newCloserChan`

`newCloserChan(kvc, size)` starts a goroutine owning a counter `ctr := 0`;
each received signal increments `ctr`; when `ctr == size` it calls
`kvc.Close()`, closes its own signal channel and returns.  The goroutine is
a deterministic state machine driven by the received signals, embedded as
`closerStep`; `closerRun size n` is its state after `n` signals. -/

/-- State of the `newCloserChan` goroutine.  `conduitCloses` counts the
calls of `kvc.Close()`, `signalsClosed` records `close(signals)`, and
`returned` records that the goroutine has returned (it receives no further
signals; a further step leaves the state unchanged). -/
structure CloserState where
  ctr : Nat
  conduitCloses : Nat
  signalsClosed : Bool
  returned : Bool
deriving DecidableEq, Repr

/-- Initial state of the closer goroutine (`ctr := 0`, nothing closed). -/
def closerInit : CloserState :=
  { ctr := 0, conduitCloses := 0, signalsClosed := false, returned := false }

/-- Effect of one received signal: `ctr++`; if `ctr == size` then
`kvc.Close(); close(signals); return`. -/
def closerStep (size : Nat) (s : CloserState) : CloserState :=
  if s.returned then s
  else if s.ctr + 1 = size then
    { ctr := s.ctr + 1, conduitCloses := s.conduitCloses + 1,
      signalsClosed := true, returned := true }
  else
    { s with ctr := s.ctr + 1 }

/-- State of the closer goroutine of `newCloserChan(kvc, size)` after `n`
signals have been sent to it. -/
def closerRun (size : Nat) (n : Nat) : CloserState :=
  (closerStep size)^[n] closerInit

/-!  ### The `MapReducer` interface

A `MapReducer` supplies `Input`, `Map`, `Reduce` and `Consume`.  In the
embedding each is pure: `Input` is the list of records the input channel
delivers before closing; `Map kv` is the list of records one call
`Map(kv, emit)` sends to the emit channel; `Reduce l` is the list of
records one call `Reduce(in, emit)` sends to the emit channel when its in
channel delivers `l` and closes; `Consume l` is the error returned when
the consumed channel delivers `l` and closes (`none` = `nil`). -/
structure MapReducer (ε : Type) where
  Input : List Rec
  Map : Rec → List Rec
  Reduce : List Rec → List Rec
  Consume : List Rec → Option ε

/-!  ### `performMapping`

The dispatcher loop is
`idx := 0; for kv := range mr.Input() { mapChans[idx%size] <- kv; idx++ }`
followed by `mapChans[i].Close()` for every `i < size`; its behaviour in
program order is the event list `performMappingDispatch`.  Worker `i`
therefore receives exactly the input records whose arrival position is
congruent to `i` modulo `size` (`mapWorkerInput`), and its goroutine body
`for kv := range in { mr.Map(kv, mapEmitChan) }; signals <- struct{}{}`
is embedded as the event list `mapTaskTrace`. -/

/-- A channel operation performed by a dispatcher goroutine: send a record
to worker conduit `chanIdx`, or close worker conduit `chanIdx`. -/
inductive DispatchEvent (α : Type) where
  | send : Nat → α → DispatchEvent α
  | closeChan : Nat → DispatchEvent α
deriving DecidableEq, Repr

/-- The event list, in program order, of the dispatching part of
`performMapping` with pool size `size` on input `input`. -/
def performMappingDispatch (size : Nat) (input : List Rec) :
    List (DispatchEvent Rec) :=
  (input.enum.map fun p => DispatchEvent.send (p.1 % size) p.2)
    ++ (List.range size).map DispatchEvent.closeChan

/-- The records map worker `i` receives on its conduit: those input records
whose arrival position is `≡ i (mod size)`, in arrival order. -/
def mapWorkerInput (size : Nat) (input : List Rec) (i : Nat) : List Rec :=
  (input.enum.filter fun p => p.1 % size = i).map Prod.snd

/-- An action of a worker goroutine: a call of the caller's `Map` on one
record, a single call of the caller's `Reduce` on a whole drained conduit
content, or the send of the completion signal to the termination counter. -/
inductive TaskEvent (α : Type) where
  | mapCall : α → TaskEvent α
  | reduceCall : List α → TaskEvent α
  | signalSend : TaskEvent α
deriving DecidableEq, Repr

/-- Whether a task event is a call of the caller's `Map`. -/
def TaskEvent.isMapCall {α : Type} : TaskEvent α → Bool
  | .mapCall _ => true
  | _ => false

/-- Whether a task event is a call of the caller's `Reduce`. -/
def TaskEvent.isReduceCall {α : Type} : TaskEvent α → Bool
  | .reduceCall _ => true
  | _ => false

/-- Whether a task event is the send of a completion signal. -/
def TaskEvent.isSignalSend {α : Type} : TaskEvent α → Bool
  | .signalSend => true
  | _ => false

/-- The event list, in program order, of map worker `i`:
one `Map` call per record of its conduit, then one completion signal. -/
def mapTaskTrace {ε : Type} (mr : MapReducer ε) (size i : Nat) :
    List (TaskEvent Rec) :=
  (mapWorkerInput size mr.Input i).map TaskEvent.mapCall
    ++ [TaskEvent.signalSend]

/-- The list of the `size` map worker conduit contents, in index order
(`mapChans` in the source). -/
def mapChansContents {ε : Type} (mr : MapReducer ε) (size : Nat) :
    List (List Rec) :=
  (List.range size).map fun i => mapWorkerInput size mr.Input i

/-- The records map worker `i` emits onto the shared intermediate conduit:
the concatenation of `mr.Map kv` over its received records, in order. -/
def mapWorkerEmit {ε : Type} (mr : MapReducer ε) (size i : Nat) : List Rec :=
  (mapWorkerInput size mr.Input i).flatMap mr.Map

/-- The content of the intermediate conduit `mapEmitChan`: everything the
`size` map workers emit (canonical schedule: concatenated in worker
order; all theorems below use only schedule-invariant consequences). -/
def mapEmitContents {ε : Type} (mr : MapReducer ε) (size : Nat) : List Rec :=
  (List.range size).flatMap fun i => mapWorkerEmit mr size i

/-!  ### `performReducing`

The dispatcher loop is
`for kv := range mapEmitChan { reduceChans[adler32(kv.ID()) % uint32(size)] <- kv }`;
worker `i` therefore receives exactly the intermediate records whose
identity hashes to `i` (`reduceWorkerInput`), and its goroutine body
`mr.Reduce(in, reduceEmitChan); signals <- struct{}{}` is embedded as the
event list `reduceTaskTrace`. -/

/-- The routing performed by the dispatch loop of `performReducing`:
each intermediate record paired with the worker conduit index it is sent
to, in arrival order. -/
def performReducingDispatch (size : Nat) (emitted : List Rec) :
    List (Nat × Rec) :=
  emitted.map fun kv => (reduceIndex size kv, kv)

/-- The records reduce worker `i` receives on its conduit: the intermediate
records routed to index `i`, in arrival order. -/
def reduceWorkerInput (size : Nat) (emitted : List Rec) (i : Nat) : List Rec :=
  emitted.filter fun kv => reduceIndex size kv = i

/-- The list of the `size` reduce worker conduit contents, in index order
(`reduceChans` in the source). -/
def reduceChansContents (size : Nat) (emitted : List Rec) : List (List Rec) :=
  (List.range size).map fun i => reduceWorkerInput size emitted i

/-- The event list, in program order, of reduce worker `i`: one `Reduce`
call on its whole conduit content, then one completion signal. -/
def reduceTaskTrace (size : Nat) (emitted : List Rec) (i : Nat) :
    List (TaskEvent Rec) :=
  [TaskEvent.reduceCall (reduceWorkerInput size emitted i),
   TaskEvent.signalSend]

/-- The content of the output conduit `reduceEmitChan`: everything the
`size` reduce workers emit (canonical schedule, worker order). -/
def reduceEmitContents {ε : Type} (mr : MapReducer ε) (size : Nat)
    (emitted : List Rec) : List Rec :=
  (List.range size).flatMap fun i => mr.Reduce (reduceWorkerInput size emitted i)

/-!  ### `MapReduce` -/

/-- The content of the conduit handed to `Consume`: the output of the
reduce stage (pool size `cpus = runtime.NumCPU()`) over the output of the
map stage (pool size `cpus * 4`). -/
def pipelineOutput {ε : Type} (mr : MapReducer ε) (cpus : Nat) : List Rec :=
  reduceEmitContents mr cpus (mapEmitContents mr (cpus * 4))

/-- `MapReduce(mr)`: starts `performReducing` and `performMapping`
concurrently and returns `mr.Consume(reduceEmitChan)`. -/
def MapReduce {ε : Type} (mr : MapReducer ε) (cpus : Nat) : Option ε :=
  mr.Consume (pipelineOutput mr cpus)

/-!  ## Helper lemmas -/

lemma closerRun_succ (size n : Nat) :
    closerRun size (n + 1) = closerStep size (closerRun size n) :=
  Function.iterate_succ_apply' _ _ _

/-- Full description of the closer goroutine's state for a positive target:
it counts up untouched below `size` and transitions at the `size`-th signal
to the final state, where the conduit has been closed once and the signal
channel is closed. -/
lemma closerRun_spec (size : Nat) (hs : 0 < size) (n : Nat) :
    closerRun size n =
      if n < size then
        { ctr := n, conduitCloses := 0, signalsClosed := false, returned := false }
      else
        { ctr := size, conduitCloses := 1, signalsClosed := true, returned := true } := by
  induction n with
  | zero => simp [closerRun, hs, closerInit]
  | succ n ih =>
    rw [closerRun_succ, ih]
    by_cases h1 : n < size
    · by_cases h2 : n + 1 < size
      · have hne : ¬ (n + 1 = size) := by omega
        simp [h1, h2, closerStep, hne]
      · have heq : n + 1 = size := by omega
        simp [h1, h2, closerStep, heq]
    · have h2 : ¬ (n + 1 < size) := by omega
      simp [h1, h2, closerStep]

/-- With target `0`, the closer goroutine only ever counts: `ctr` becomes
positive before the comparison with `size`, so `ctr == 0` is never true. -/
lemma closerRun_zero_spec (n : Nat) :
    closerRun 0 n =
      { ctr := n, conduitCloses := 0, signalsClosed := false, returned := false } := by
  induction n with
  | zero => rfl
  | succ n ih => rw [closerRun_succ, ih]; simp [closerStep]

/-- Both running components of the Adler-32 fold stay below the modulus. -/
lemma adler32_foldl_lt (data : List Nat) (ab : Nat × Nat)
    (h1 : ab.1 < adlerMod) (h2 : ab.2 < adlerMod) :
    (data.foldl adler32Step ab).1 < adlerMod ∧
      (data.foldl adler32Step ab).2 < adlerMod := by
  induction data generalizing ab with
  | nil => exact ⟨h1, h2⟩
  | cons c t ih =>
    exact ih _ (Nat.mod_lt _ (by simp [adlerMod])) (Nat.mod_lt _ (by simp [adlerMod]))

/-- The Adler-32 checksum is a 32-bit value. -/
lemma adler32Checksum_lt (data : List Nat) :
    adler32Checksum data < 4294967296 := by
  have h := adler32_foldl_lt data (1, 0) (by simp [adlerMod]) (by simp [adlerMod])
  have h1 : (data.foldl adler32Step (1, 0)).1 < 65521 := h.1
  have h2 : (data.foldl adler32Step (1, 0)).2 < 65521 := h.2
  unfold adler32Checksum
  omega

/-- The reducer index depends only on the identity string and the pool
size, and for a pool size representable in 32 bits it is the checksum of
the identity modulo the pool size. -/
lemma reduceIndex_eq (size : Nat) (hs32 : size < 4294967296) (kv : Rec) :
    reduceIndex size kv = adler32Checksum kv.ident % size := by
  unfold reduceIndex uint32Of
  rw [Nat.mod_eq_of_lt hs32]

/-- The reducer index is a valid index into the pool. -/
lemma reduceIndex_lt (size : Nat) (hs : 0 < size) (hs32 : size < 4294967296)
    (kv : Rec) : reduceIndex size kv < size := by
  rw [reduceIndex_eq size hs32]
  exact Nat.mod_lt _ hs

/-- Membership in the reduce dispatch stream determines the index. -/
lemma mem_performReducingDispatch (size : Nat) (emitted : List Rec)
    (i : Nat) (r : Rec) (h : (i, r) ∈ performReducingDispatch size emitted) :
    r ∈ emitted ∧ i = reduceIndex size r := by
  unfold performReducingDispatch at h
  rcases List.mem_map.1 h with ⟨kv, hkv, heq⟩
  injection heq with h1 h2
  subst h2
  subst h1
  exact ⟨hkv, rfl⟩

/-- Splitting a list by the value of a bounded index function partitions
it: the block lengths sum to the list's length. -/
lemma sum_length_filter_eq {α : Type} (size : Nat) (g : α → Nat) (l : List α)
    (hg : ∀ x ∈ l, g x < size) :
    (∑ i in Finset.range size, (l.filter fun x => g x = i).length) = l.length := by
  induction l with
  | nil => simp
  | cons x t ih =>
    have hx : g x ∈ Finset.range size := Finset.mem_range.2 (hg x (List.mem_cons_self x t))
    have ht : ∀ y ∈ t, g y < size := fun y hy => hg y (List.mem_cons_of_mem x hy)
    have hsplit : ∀ i : Nat, ((x :: t).filter fun y => g y = i).length =
        (if g x = i then 1 else 0) + (t.filter fun y => g y = i).length := by
      intro i
      by_cases h : g x = i <;> simp [List.filter_cons, h, Nat.add_comm]
    calc (∑ i in Finset.range size, ((x :: t).filter fun y => g y = i).length)
        = ∑ i in Finset.range size,
            ((if g x = i then 1 else 0) + (t.filter fun y => g y = i).length) :=
          Finset.sum_congr rfl fun i _ => hsplit i
      _ = (∑ i in Finset.range size, if g x = i then 1 else 0)
            + ∑ i in Finset.range size, (t.filter fun y => g y = i).length :=
          Finset.sum_add_distrib
      _ = 1 + t.length := by
          rw [ih ht, Finset.sum_ite_eq (Finset.range size) (g x) fun _ => 1, if_pos hx]
      _ = (x :: t).length := by simp [Nat.add_comm]

/-- The `i`-th event of the map dispatcher is the send of the `i`-th input
record to worker conduit `i % size`. -/
lemma performMappingDispatch_getElem_send (size : Nat) (input : List Rec) (i : Nat)
    (h : i < input.length) :
    (performMappingDispatch size input)[i]? =
      (input[i]?).map fun r => DispatchEvent.send (i % size) r := by
  unfold performMappingDispatch
  rw [List.getElem?_append_left (by simpa using h)]
  simp only [List.getElem?_map, List.getElem?_enum, Option.map_map]
  rfl

/-- Every close event of the map dispatcher lies after all sends. -/
lemma performMappingDispatch_close_late (size : Nat) (input : List Rec) (j c : Nat)
    (h : (performMappingDispatch size input)[j]? = some (DispatchEvent.closeChan c)) :
    input.length ≤ j := by
  by_contra hlt
  push_neg at hlt
  have hsend := performMappingDispatch_getElem_send size input j hlt
  rw [h, List.getElem?_eq_getElem hlt] at hsend
  simp at hsend

/-- The map dispatcher closes every one of the `size` worker conduits. -/
lemma performMappingDispatch_close_mem (size : Nat) (input : List Rec) (c : Nat)
    (h : c < size) : DispatchEvent.closeChan c ∈ performMappingDispatch size input := by
  unfold performMappingDispatch
  exact List.mem_append_right _ (List.mem_map.2 ⟨c, List.mem_range.2 h, rfl⟩)

/-- The reducer index is a function of the identity string alone. -/
lemma reduceIndex_congr (size : Nat) (r1 r2 : Rec) (h : r1.ident = r2.ident) :
    reduceIndex size r1 = reduceIndex size r2 := by
  unfold reduceIndex
  rw [h]

/-- Identities present on reduce worker `i`'s conduit. -/
lemma mem_ident_reduceWorkerInput (size : Nat) (emitted : List Rec) (i : Nat)
    (x : List Nat) :
    x ∈ (reduceWorkerInput size emitted i).map Rec.ident ↔
      ∃ r ∈ emitted, r.ident = x ∧ reduceIndex size r = i := by
  simp only [reduceWorkerInput, List.mem_map, List.mem_filter, decide_eq_true_eq]
  constructor
  · rintro ⟨r, ⟨hr, hidx⟩, hx⟩
    exact ⟨r, hr, hx, hidx⟩
  · rintro ⟨r, hr, hx, hidx⟩
    exact ⟨r, ⟨hr, hidx⟩, hx⟩

/-- Under the reducer's contract (one aggregated record per distinct input
identity), the identities leaving the output conduit have no duplicates:
distinct reduce workers receive disjoint identity sets, because the routing
index is a function of the identity. -/
lemma reduceEmit_ident_nodup {ε : Type} (mr : MapReducer ε) (size : Nat)
    (emitted : List Rec)
    (hred : ∀ l : List Rec, ((mr.Reduce l).map Rec.ident).Nodup ∧
        ((mr.Reduce l).map Rec.ident).toFinset = (l.map Rec.ident).toFinset) :
    ((reduceEmitContents mr size emitted).map Rec.ident).Nodup := by
  have hmem : ∀ (l : List Rec) (x : List Nat),
      x ∈ (mr.Reduce l).map Rec.ident ↔ x ∈ l.map Rec.ident := by
    intro l x
    rw [← List.mem_toFinset, (hred l).2, List.mem_toFinset]
  unfold reduceEmitContents
  rw [List.map_flatMap]
  refine List.nodup_flatMap.2 ⟨fun i _ => (hred _).1, ?_⟩
  refine List.Nodup.pairwise_of_forall_ne (List.nodup_range size) ?_
  intro i hi j hj hne
  show List.Disjoint _ _
  intro x hxi hxj
  rw [hmem, mem_ident_reduceWorkerInput] at hxi hxj
  obtain ⟨r1, _, hx1, hi1⟩ := hxi
  obtain ⟨r2, _, hx2, hi2⟩ := hxj
  exact hne (hi1 ▸ hi2 ▸ reduceIndex_congr size r1 r2 (hx1.trans hx2.symm))

/-- Under the reducer's contract, the set of identities leaving the output
conduit equals the set of identities entering the reduce stage. -/
lemma reduceEmit_ident_toFinset {ε : Type} (mr : MapReducer ε) (size : Nat)
    (hs : 0 < size) (hs32 : size < 4294967296) (emitted : List Rec)
    (hred : ∀ l : List Rec, ((mr.Reduce l).map Rec.ident).Nodup ∧
        ((mr.Reduce l).map Rec.ident).toFinset = (l.map Rec.ident).toFinset) :
    ((reduceEmitContents mr size emitted).map Rec.ident).toFinset =
      (emitted.map Rec.ident).toFinset := by
  have hmem : ∀ (l : List Rec) (x : List Nat),
      x ∈ (mr.Reduce l).map Rec.ident ↔ x ∈ l.map Rec.ident := by
    intro l x
    rw [← List.mem_toFinset, (hred l).2, List.mem_toFinset]
  ext x
  simp only [List.mem_toFinset]
  unfold reduceEmitContents
  rw [List.map_flatMap]
  simp only [List.mem_flatMap, List.mem_range]
  constructor
  · rintro ⟨i, hi, hx⟩
    rw [hmem, mem_ident_reduceWorkerInput] at hx
    obtain ⟨r, hr, hxr, _⟩ := hx
    exact List.mem_map.2 ⟨r, hr, hxr⟩
  · intro hx
    obtain ⟨r, hr, hxr⟩ := List.mem_map.1 hx
    refine ⟨reduceIndex size r, reduceIndex_lt size hs hs32 r, ?_⟩
    rw [hmem, mem_ident_reduceWorkerInput]
    exact ⟨r, hr, hxr, rfl⟩

/-!  ## Sample MapReducers (used to instantiate theorems) -/

/-- Identity map, dedup-by-identity reduce (one aggregated record per
distinct identity), error-free consume. -/
def mrDedup : MapReducer Nat where
  Input := [⟨[97], 1⟩, ⟨[97], 2⟩, ⟨[98], 3⟩]
  Map := fun r => [r]
  Reduce := fun l => (l.map Rec.ident).dedup.map fun s => { ident := s, payload := 0 }
  Consume := fun _ => none

/-- Identity map and reduce over one record with identity `"a"`. -/
def mrA : MapReducer Nat where
  Input := [⟨[97], 1⟩]
  Map := fun r => [r]
  Reduce := fun l => l
  Consume := fun _ => none

/-- Like `mrA` but a different invocation: same identity, other payload. -/
def mrB : MapReducer Nat where
  Input := [⟨[97], 5⟩]
  Map := fun r => [r]
  Reduce := fun l => l
  Consume := fun _ => none

/-- A MapReducer whose consumer always reports the sentinel error `7`. -/
def mrErr : MapReducer Nat where
  Input := []
  Map := fun r => [r]
  Reduce := fun l => l
  Consume := fun _ => some 7

/-- A MapReducer with an empty input whose consumer reports no error. -/
def mrEmpty : MapReducer Nat where
  Input := []
  Map := fun r => [r]
  Reduce := fun l => l
  Consume := fun _ => none

/-!  ## Claims -/

/-- **C1.** Within one invocation, any two records of the reduce dispatch
stream with equal `ID()` strings are routed to the same reducer worker
conduit; the index is the fixed, deterministic 32-bit Adler checksum of
the identity modulo `K_reduce`, so routing the same identity twice yields
the same index. -/
theorem routing_same_identity_same_reducer (size : Nat) (emitted : List Rec)
    (i1 i2 : Nat) (r1 r2 : Rec)
    (hs : 0 < size) (hs32 : size < 4294967296)
    (h1 : (i1, r1) ∈ performReducingDispatch size emitted)
    (h2 : (i2, r2) ∈ performReducingDispatch size emitted)
    (hid : r1.ident = r2.ident) :
    i1 = i2 ∧ i1 = adler32Checksum r1.ident % size ∧
      adler32Checksum r1.ident < 4294967296 := by
  obtain ⟨hm1, hi1⟩ := mem_performReducingDispatch size emitted i1 r1 h1
  obtain ⟨hm2, hi2⟩ := mem_performReducingDispatch size emitted i2 r2 h2
  refine ⟨?_, ?_, adler32Checksum_lt r1.ident⟩
  · rw [hi1, hi2]
    exact reduceIndex_congr size r1 r2 hid
  · rw [hi1, reduceIndex_eq size hs32]

/-- Witness for `routing_same_identity_same_reducer`: two records with
identity `"a"` in a pool of two reducers. -/
theorem routing_same_identity_same_reducer_witness :
    (0 : Nat) = 0 ∧ (0 : Nat) = adler32Checksum [97] % 2 ∧
      adler32Checksum [97] < 4294967296 :=
  routing_same_identity_same_reducer 2 [⟨[97], 1⟩, ⟨[97], 2⟩] 0 0 ⟨[97], 1⟩ ⟨[97], 2⟩
    (by decide) (by decide) (by decide) (by decide) rfl

/-- **C2, counterexample.** With target count `size = 0` the protected
conduit is never closed: the counter compares `ctr` to the target only
after an increment, so after having received exactly `0` signals (and still
after `5`) no close has happened and the signal channel is open — the
claimed behaviour "closes the conduit exactly once" fails at `size = 0`. -/
theorem newCloserChan_size_zero_counterexample :
    (closerRun 0 0).conduitCloses = 0 ∧ (closerRun 0 5).conduitCloses = 0 ∧
      (closerRun 0 5).signalsClosed = false := by
  decide

/-- **C2 (amended: positive target count).** For every conduit and every
target count `size > 0`, `newCloserChan` closes the conduit exactly once,
only once exactly `size` completion signals have been received and never
before, and the signal channel is only closed once the conduit has been
closed. -/
theorem newCloserChan_spec (size : Nat) (hs : 0 < size) :
    ((closerRun size size).conduitCloses = 1 ∧
        (closerRun size size).signalsClosed = true)
  ∧ (∀ n, n < size → (closerRun size n).conduitCloses = 0 ∧
        (closerRun size n).signalsClosed = false)
  ∧ (∀ n, (closerRun size n).conduitCloses ≤ 1)
  ∧ (∀ n, (closerRun size n).signalsClosed = true →
        (closerRun size n).conduitCloses = 1) := by
  refine ⟨?_, ?_, ?_, ?_⟩
  · rw [closerRun_spec size hs size]
    simp
  · intro n hn
    rw [closerRun_spec size hs n]
    simp [hn]
  · intro n
    rw [closerRun_spec size hs n]
    by_cases h : n < size <;> simp [h]
  · intro n h
    rw [closerRun_spec size hs n] at h ⊢
    by_cases hn : n < size
    · simp [hn] at h
    · simp [hn]

/-- Witness for `newCloserChan_spec` at target count `2`: the conduit is
closed exactly at the second signal and not at the first. -/
theorem newCloserChan_spec_witness :
    (closerRun 2 2).conduitCloses = 1 ∧ (closerRun 2 2).signalsClosed = true
      ∧ (closerRun 2 1).conduitCloses = 0 ∧ (closerRun 2 5).conduitCloses ≤ 1 :=
  ⟨(newCloserChan_spec 2 (by decide)).1.1,
   (newCloserChan_spec 2 (by decide)).1.2,
   ((newCloserChan_spec 2 (by decide)).2.1 1 (by decide)).1,
   (newCloserChan_spec 2 (by decide)).2.2.1 5⟩

/-- **C3.** `MapReduce` returns exactly what `Consume` returns on the
output conduit of the reduce stage: the sole error source of the result. -/
theorem MapReduce_returns_consume_error {ε : Type} (mr : MapReducer ε)
    (cpus : Nat) (e : Option ε)
    (h : mr.Consume (pipelineOutput mr cpus) = e) :
    MapReduce mr cpus = e := h

/-- Witness for `MapReduce_returns_consume_error`: a consumer returning the
sentinel error `7` makes `MapReduce` return exactly `some 7`. -/
theorem MapReduce_returns_consume_error_witness :
    MapReduce mrErr 1 = some 7 :=
  MapReduce_returns_consume_error mrErr 1 (some 7) rfl

/-- **C10.** A termination counter with target count `0` never closes the
protected conduit: whatever the number of received signals, no close has
happened and the signal channel remains open. -/
theorem newCloserChan_size_zero_never_closes :
    ∀ n : Nat, (closerRun 0 n).conduitCloses = 0 ∧
      (closerRun 0 n).signalsClosed = false := by
  intro n
  rw [closerRun_zero_spec n]
  exact ⟨rfl, rfl⟩

/-- **C9.** The reducer index is a pure function of the identity string and
the pool size alone: across two distinct invocations of `MapReduce` with
the same pool size, records with the same identity are routed to the same
index, namely the Adler-32 checksum of the identity modulo `K_reduce`. -/
theorem routing_deterministic_across_invocations {ε1 ε2 : Type}
    (mr1 : MapReducer ε1) (mr2 : MapReducer ε2) (cpus : Nat)
    (i1 i2 : Nat) (r1 r2 : Rec)
    (hs : 0 < cpus) (hs32 : cpus < 4294967296)
    (h1 : (i1, r1) ∈ performReducingDispatch cpus (mapEmitContents mr1 (cpus * 4)))
    (h2 : (i2, r2) ∈ performReducingDispatch cpus (mapEmitContents mr2 (cpus * 4)))
    (hid : r1.ident = r2.ident) :
    i1 = i2 ∧ i1 = adler32Checksum r1.ident % cpus := by
  obtain ⟨hm1, hi1⟩ := mem_performReducingDispatch _ _ i1 r1 h1
  obtain ⟨hm2, hi2⟩ := mem_performReducingDispatch _ _ i2 r2 h2
  constructor
  · rw [hi1, hi2]
    exact reduceIndex_congr cpus r1 r2 hid
  · rw [hi1, reduceIndex_eq cpus hs32]

/-- Witness for `routing_deterministic_across_invocations`: invocations of
`mrA` and `mrB` with one CPU route identity `"a"` to the same index. -/
theorem routing_deterministic_across_invocations_witness :
    (0 : Nat) = 0 ∧ (0 : Nat) = adler32Checksum [97] % 1 :=
  routing_deterministic_across_invocations mrA mrB 1 0 0 ⟨[97], 1⟩ ⟨[97], 5⟩
    (by decide) (by decide) (by decide) (by decide) rfl

/-- **C4.** The map-stage dispatcher sends the `i`-th input record (arrival
order, from zero) to worker conduit `i mod K_map`, and the close of any
worker conduit happens only after all sends, with all `K_map` conduits
closed. -/
theorem performMapping_round_robin (size : Nat) (input : List Rec) :
    (∀ i, i < input.length →
        (performMappingDispatch size input)[i]? =
          (input[i]?).map fun r => DispatchEvent.send (i % size) r)
  ∧ (∀ j c, (performMappingDispatch size input)[j]? =
        some (DispatchEvent.closeChan c) → input.length ≤ j)
  ∧ (∀ c, c < size →
        DispatchEvent.closeChan c ∈ performMappingDispatch size input) :=
  ⟨fun i hi => performMappingDispatch_getElem_send size input i hi,
   fun j c hj => performMappingDispatch_close_late size input j c hj,
   fun c hc => performMappingDispatch_close_mem size input c hc⟩

/-- Witness for `performMapping_round_robin` with two workers and three
records: the third record goes to conduit `2 mod 2 = 0`, the close event of
conduit `1` (at position 4) lies after the three sends, and both conduits
are closed. -/
theorem performMapping_round_robin_witness :
    (performMappingDispatch 2 [⟨[97], 1⟩, ⟨[98], 2⟩, ⟨[99], 3⟩])[2]? =
        some (DispatchEvent.send 0 ⟨[99], 3⟩)
  ∧ ([⟨[97], 1⟩, ⟨[98], 2⟩, ⟨[99], 3⟩] : List Rec).length ≤ 4
  ∧ DispatchEvent.closeChan 1 ∈
      performMappingDispatch 2 [⟨[97], 1⟩, ⟨[98], 2⟩, ⟨[99], 3⟩] := by
  refine ⟨?_, ?_, ?_⟩
  · exact (performMapping_round_robin 2 [⟨[97], 1⟩, ⟨[98], 2⟩, ⟨[99], 3⟩]).1 2 (by decide)
  · exact (performMapping_round_robin 2 [⟨[97], 1⟩, ⟨[98], 2⟩, ⟨[99], 3⟩]).2.1 4 1 (by decide)
  · exact (performMapping_round_robin 2 [⟨[97], 1⟩, ⟨[98], 2⟩, ⟨[99], 3⟩]).2.2 1 (by decide)

/-- **C5.** The reduce stage has exactly `K_reduce = cpus` worker conduits
and tasks; each task performs exactly one call of the caller's `Reduce`,
on its own assigned conduit content as a whole (not per record), followed
by exactly one completion signal; the emissions of the one `Reduce` call
per task feed the single shared output conduit. -/
theorem performReducing_structure {ε : Type} (mr : MapReducer ε) (cpus : Nat)
    (emitted : List Rec) :
    (reduceChansContents cpus emitted).length = cpus
  ∧ (∀ i, i < cpus →
        (reduceTaskTrace cpus emitted i).countP TaskEvent.isReduceCall = 1
      ∧ (reduceTaskTrace cpus emitted i).countP TaskEvent.isSignalSend = 1
      ∧ reduceTaskTrace cpus emitted i =
          [TaskEvent.reduceCall (reduceWorkerInput cpus emitted i),
           TaskEvent.signalSend])
  ∧ reduceEmitContents mr cpus emitted =
      (List.range cpus).flatMap fun i =>
        mr.Reduce (reduceWorkerInput cpus emitted i) := by
  refine ⟨by simp [reduceChansContents], ?_, rfl⟩
  intro i hi
  refine ⟨?_, ?_, rfl⟩ <;>
    simp [reduceTaskTrace, TaskEvent.isReduceCall, TaskEvent.isSignalSend]

/-- Witness for `performReducing_structure`: pool of two reducers over two
concrete intermediate records. -/
theorem performReducing_structure_witness :
    (reduceChansContents 2 [⟨[97], 1⟩, ⟨[98], 2⟩]).length = 2
  ∧ (reduceTaskTrace 2 [⟨[97], 1⟩, ⟨[98], 2⟩] 0).countP TaskEvent.isReduceCall = 1
  ∧ (reduceTaskTrace 2 [⟨[97], 1⟩, ⟨[98], 2⟩] 0).countP TaskEvent.isSignalSend = 1
  ∧ reduceEmitContents mrA 2 [⟨[97], 1⟩, ⟨[98], 2⟩] =
      (List.range 2).flatMap fun i =>
        mrA.Reduce (reduceWorkerInput 2 [⟨[97], 1⟩, ⟨[98], 2⟩] i) := by
  refine ⟨?_, ?_, ?_, ?_⟩
  · exact (performReducing_structure mrA 2 [⟨[97], 1⟩, ⟨[98], 2⟩]).1
  · exact ((performReducing_structure mrA 2 [⟨[97], 1⟩, ⟨[98], 2⟩]).2.1 0 (by decide)).1
  · exact ((performReducing_structure mrA 2 [⟨[97], 1⟩, ⟨[98], 2⟩]).2.1 0 (by decide)).2.1
  · exact (performReducing_structure mrA 2 [⟨[97], 1⟩, ⟨[98], 2⟩]).2.2

/-- **C6.** The map stage has exactly `K_map = cpus * 4` worker conduits
and tasks; the caller's `Map` is called exactly once per record produced by
`Input()` (the workers' call totals sum to the input length, and the record
arriving at position `p` is mapped by worker `p mod K_map`); each worker's
trace is its `Map` calls followed by exactly one completion signal. -/
theorem performMapping_structure {ε : Type} (mr : MapReducer ε) (cpus : Nat)
    (hc : 0 < cpus) :
    (mapChansContents mr (cpus * 4)).length = cpus * 4
  ∧ (∑ i in Finset.range (cpus * 4),
        (mapTaskTrace mr (cpus * 4) i).countP TaskEvent.isMapCall)
      = mr.Input.length
  ∧ (∀ p r, mr.Input[p]? = some r →
        TaskEvent.mapCall r ∈ mapTaskTrace mr (cpus * 4) (p % (cpus * 4)))
  ∧ (∀ i, i < cpus * 4 →
        (mapTaskTrace mr (cpus * 4) i).countP TaskEvent.isSignalSend = 1
      ∧ mapTaskTrace mr (cpus * 4) i =
          (mapWorkerInput (cpus * 4) mr.Input i).map TaskEvent.mapCall
            ++ [TaskEvent.signalSend]) := by
  have hsize : 0 < cpus * 4 := by omega
  refine ⟨by simp [mapChansContents], ?_, ?_, ?_⟩
  · have hcount : ∀ i, (mapTaskTrace mr (cpus * 4) i).countP TaskEvent.isMapCall
        = (mr.Input.enum.filter fun p => p.1 % (cpus * 4) = i).length := by
      intro i
      simp [mapTaskTrace, mapWorkerInput, List.countP_append, List.map_map,
        List.countP_map, Function.comp_def, TaskEvent.isMapCall,
        TaskEvent.isSignalSend]
    calc (∑ i in Finset.range (cpus * 4),
            (mapTaskTrace mr (cpus * 4) i).countP TaskEvent.isMapCall)
        = ∑ i in Finset.range (cpus * 4),
            (mr.Input.enum.filter fun p => p.1 % (cpus * 4) = i).length :=
          Finset.sum_congr rfl fun i _ => hcount i
      _ = mr.Input.enum.length :=
          sum_length_filter_eq (cpus * 4) (fun p => p.1 % (cpus * 4)) mr.Input.enum
            (fun x _ => Nat.mod_lt _ hsize)
      _ = mr.Input.length := List.enum_length
  · intro p r hp
    have hpe : (p, r) ∈ mr.Input.enum := List.mk_mem_enum_iff_getElem?.2 hp
    have hpw : r ∈ mapWorkerInput (cpus * 4) mr.Input (p % (cpus * 4)) := by
      unfold mapWorkerInput
      exact List.mem_map.2 ⟨(p, r), List.mem_filter.2 ⟨hpe, by simp⟩, rfl⟩
    unfold mapTaskTrace
    exact List.mem_append_left _ (List.mem_map.2 ⟨r, hpw, rfl⟩)
  · intro i hi
    refine ⟨?_, rfl⟩
    simp [mapTaskTrace, List.countP_append, List.countP_map, Function.comp,
      TaskEvent.isMapCall, TaskEvent.isSignalSend]

/-- Witness for `performMapping_structure`: one CPU (four map workers) on
the single-record input of `mrA`. -/
theorem performMapping_structure_witness :
    (mapChansContents mrA (1 * 4)).length = 1 * 4
  ∧ (∑ i in Finset.range (1 * 4),
        (mapTaskTrace mrA (1 * 4) i).countP TaskEvent.isMapCall)
      = mrA.Input.length
  ∧ TaskEvent.mapCall ⟨[97], 1⟩ ∈ mapTaskTrace mrA (1 * 4) (0 % (1 * 4))
  ∧ (mapTaskTrace mrA (1 * 4) 0).countP TaskEvent.isSignalSend = 1 := by
  refine ⟨?_, ?_, ?_, ?_⟩
  · exact (performMapping_structure mrA 1 (by decide)).1
  · exact (performMapping_structure mrA 1 (by decide)).2.1
  · exact (performMapping_structure mrA 1 (by decide)).2.2.1 0 ⟨[97], 1⟩ rfl
  · exact ((performMapping_structure mrA 1 (by decide)).2.2.2 0 (by decide)).1

/-- **C7.** When every reducer emits exactly one aggregated record per
distinct identity of its drained input, the set of identities reaching
`Consume` equals the set of identities emitted by `Map` across the run,
and no identity reaches `Consume` twice. -/
theorem consumed_identities_eq_mapped {ε : Type} (mr : MapReducer ε)
    (cpus : Nat) (hc : 0 < cpus) (hc32 : cpus < 4294967296)
    (hred : ∀ l : List Rec, ((mr.Reduce l).map Rec.ident).Nodup ∧
        ((mr.Reduce l).map Rec.ident).toFinset = (l.map Rec.ident).toFinset) :
    ((pipelineOutput mr cpus).map Rec.ident).Nodup ∧
    ((pipelineOutput mr cpus).map Rec.ident).toFinset =
      ((mapEmitContents mr (cpus * 4)).map Rec.ident).toFinset :=
  ⟨reduceEmit_ident_nodup mr cpus _ hred,
   reduceEmit_ident_toFinset mr cpus hc hc32 _ hred⟩

/-- Witness for `consumed_identities_eq_mapped`: `mrDedup` maps three
records with duplicate identity `"a"`; its reducers aggregate per identity
and `Consume` sees each of `"a"`, `"b"` exactly once. -/
theorem consumed_identities_eq_mapped_witness :
    ((pipelineOutput mrDedup 1).map Rec.ident).Nodup ∧
    ((pipelineOutput mrDedup 1).map Rec.ident).toFinset =
      ((mapEmitContents mrDedup (1 * 4)).map Rec.ident).toFinset :=
  consumed_identities_eq_mapped mrDedup 1 (by decide) (by decide)
    (fun l => ⟨by simp [mrDedup, List.map_map, Function.comp_def,
                    List.nodup_dedup],
               by
                 simp only [mrDedup, List.map_map, Function.comp_def]
                 ext x
                 simp [List.mem_dedup]⟩)

/-- **C8.** With an input conduit that closes without delivering a record,
a reducer emitting nothing for an empty input, and a consumer returning
`nil` on a conduit that closes with zero records, the conduit handed to
`Consume` carries zero records and `MapReduce` returns `nil`. -/
theorem empty_input_gives_nil {ε : Type} (mr : MapReducer ε) (cpus : Nat)
    (hin : mr.Input = []) (hred : mr.Reduce [] = [])
    (hcon : mr.Consume [] = none) :
    pipelineOutput mr cpus = [] ∧ MapReduce mr cpus = none := by
  have hmap : mapEmitContents mr (cpus * 4) = [] := by
    simp [mapEmitContents, mapWorkerEmit, mapWorkerInput, hin]
  have hout : pipelineOutput mr cpus = [] := by
    simp [pipelineOutput, reduceEmitContents, reduceWorkerInput, hmap, hred]
  exact ⟨hout, by simp [MapReduce, hout, hcon]⟩

/-- Witness for `empty_input_gives_nil`: `mrEmpty` with one CPU. -/
theorem empty_input_gives_nil_witness :
    pipelineOutput mrEmpty 1 = [] ∧ MapReduce mrEmpty 1 = none :=
  empty_input_gives_nil mrEmpty 1 rfl rfl rfl

end GoDsa
